import Mathlib

/-!
Verification of the data-veil core: the Recognition Engine
(`backend/app/recognition_engine.py`) and the Desensitization Processor
(`backend/app/desensitization_processor.py`), shallowly embedded.

Python strings are modelled as `List Char` (codepoint sequences, matching
Python's codepoint indexing and slicing).  Python float confidences are
modelled as rationals: the program only ever compares confidences with
`>` and `==`, and the concrete values in play (1.0, 0.8) are exact in
both representations.  `re.finditer` and the spaCy NLP backend are
external collaborators and are modelled as oracle parameters.
-/

/-- Python strings as codepoint lists. -/
abbrev Str := List Char

/-- Embed a Lean string literal as a codepoint list. -/
def str (s : String) : Str := s.toList

/-- Python slice `text[s:e]` for non-negative bounds (clamping semantics). -/
def pySlice (text : Str) (s e : Nat) : Str := (text.drop s).take (e - s)

/-- Stable insertion used by `pySorted`: `x` goes after every element `y`
with `le y x`, so equal elements keep their original relative order. -/
def insertLe {α : Type} (le : α → α → Bool) (x : α) : List α → List α
  | [] => [x]
  | y :: ys => if le y x then y :: insertLe le x ys else x :: y :: ys

/-- Python's stable `sorted` with comparator `le` ("may come before"). -/
def pySorted {α : Type} (le : α → α → Bool) (l : List α) : List α :=
  l.foldl (fun acc x => insertLe le x acc) []

/-- `recognition_engine.SensitiveItem` (the Span of the spec).  The `id`
field is an opaque uuid assigned externally; nothing in the core reads it. -/
structure SensitiveItem where
  id : Str
  type : Str
  value : Str
  start_pos : Nat
  end_pos : Nat
  confidence : ℚ
deriving DecidableEq

/-- `SensitiveItem.__post_init__`: dataclass construction validates the
positions and raises `ValueError` when `end_pos < start_pos`. -/
def mkSensitiveItem (id ty value : Str) (start_pos end_pos : Nat)
    (confidence : ℚ) : Except Str SensitiveItem :=
  if end_pos < start_pos then
    .error (str "end_pos must be >= start_pos")
  else
    .ok ⟨id, ty, value, start_pos, end_pos, confidence⟩

/-- `REGEX_PATTERNS`: insertion-ordered dict of (data_type, pattern).
Order matters: more specific patterns are checked first. -/
def REGEX_PATTERNS : List (Str × Str) :=
  [(str "id_card", str "\\d\x7b17\x7d[\\dXx]"),
   (str "bank_card", str "\\d\x7b16,19\x7d"),
   (str "phone", str "1[3-9]\\d\x7b9\x7d"),
   (str "email", str "[a-zA-Z0-9._%+-]+@[a-zA-Z0-9.-]+\\.[a-zA-Z]\x7b2,\x7d")]

/-- One iteration of the inner match loop of
`RecognitionEngine._regex_recognition`: given the accumulated items and
the set of already claimed codepoint positions, either discard the match
(it overlaps a claimed position) or emit a confidence-1.0 item and claim
all of its positions. -/
def matchStep (dtype : Str) (text : Str)
    (st : List SensitiveItem × List Nat) (m : Nat × Nat) :
    List SensitiveItem × List Nat :=
  let (items, matched) := st
  let overlaps := (List.range' m.1 (m.2 - m.1)).any (fun p => matched.contains p)
  if overlaps then st
  else
    (items ++ [⟨[], dtype, pySlice text m.1 m.2, m.1, m.2, 1⟩],
     matched ++ List.range' m.1 (m.2 - m.1))

/-- `RecognitionEngine._regex_recognition`, parameterized by the external
`re.finditer` oracle (`finditer pattern text` returns the match
positions, in order). -/
def _regex_recognition (finditer : Str → Str → List (Nat × Nat))
    (text : Str) : List SensitiveItem :=
  (REGEX_PATTERNS.foldl
    (fun st dp => (finditer dp.2 text).foldl (matchStep dp.1 text) st)
    ([], [])).1

/-- Interval overlap test of `RecognitionEngine._deduplicate`:
`not (item.end_pos <= existing.start_pos or item.start_pos >= existing.end_pos)`. -/
def overlapsB (item existing : SensitiveItem) : Bool :=
  !(decide (item.end_pos ≤ existing.start_pos) ||
    decide (item.start_pos ≥ existing.end_pos))

/-- The inner loop of `RecognitionEngine._deduplicate`: walk the accepted
list; at the first accepted span overlapping the candidate, keep the
higher-confidence one (on a tie, the candidate iff its confidence is 1.0)
and stop (`break`); if nothing overlaps, append the candidate. -/
def dedupStep (item : SensitiveItem) : List SensitiveItem → List SensitiveItem
  | [] => [item]
  | existing :: rest =>
    if overlapsB item existing then
      (if item.confidence > existing.confidence then item
       else if item.confidence = existing.confidence ∧ item.confidence = 1 then item
       else existing) :: rest
    else existing :: dedupStep item rest

/-- Sort comparator of `_deduplicate`: Python `key=lambda x: (x.start_pos, x.end_pos)`. -/
def dedupLe (a b : SensitiveItem) : Bool :=
  decide (a.start_pos < b.start_pos) ||
  (decide (a.start_pos = b.start_pos) && decide (a.end_pos ≤ b.end_pos))

/-- `RecognitionEngine._deduplicate`. -/
def _deduplicate (items : List SensitiveItem) : List SensitiveItem :=
  if items = [] then []
  else (pySorted dedupLe items).foldl (fun acc it => dedupStep it acc) []

/-- Outcome of the external spaCy-backed `_nlp_recognition` call:
either a span list, or the distinguished `RecognitionError` raised by
`_load_nlp_model` (re-raised by `identify_sensitive_data`), or any other
exception (caught and logged, recognition degrades to regex-only). -/
inductive NlpOutcome where
  | success : List SensitiveItem → NlpOutcome
  | recognitionError : Str → NlpOutcome
  | otherError : Str → NlpOutcome

/-- `RecognitionEngine.identify_sensitive_data`, parameterized by the
`re.finditer` oracle and the NLP-backend outcome oracle. -/
def identify_sensitive_data (finditer : Str → Str → List (Nat × Nat))
    (nlp : NlpOutcome) (text : Str) (use_nlp : Bool) :
    Except Str (List SensitiveItem) :=
  let regex_items := _regex_recognition finditer text
  if use_nlp then
    match nlp with
    | .success nlp_items => .ok (_deduplicate (regex_items ++ nlp_items))
    | .recognitionError msg => .error msg
    | .otherError _ => .ok (_deduplicate regex_items)
  else
    .ok (_deduplicate regex_items)

/-- `desensitization_processor.DesensitizationRule`. -/
structure DesensitizationRule where
  id : Str
  name : Str
  data_type : Str
  strategy : Str
  enabled : Bool
deriving DecidableEq

/-- `MaskStrategy._mask_address`: Python `re.match` of the lazy patterns
`(.*?[省市].*?[市区县])` then `(.*?[市区县])` against the address.
A lazy leading `.*?` makes `re.match` pick the earliest class character;
the first pattern matches iff some 省/市 character is followed by a later
市/区/县 character, and the group then ends at the earliest such later
character; the second pattern's group ends at the earliest 市/区/县
character.  If neither matches, keep the first 6 characters (addresses of
6 or fewer characters collapse to the mask suffix alone). -/
def MaskStrategy._mask_address (address : Str) : Str :=
  let idx1 := address.findIdx (fun c => c = '省' ∨ c = '市')
  let isC2 := fun (c : Char) => c = '市' ∨ c = '区' ∨ c = '县'
  if idx1 < address.length then
    let rest := address.drop (idx1 + 1)
    let j := rest.findIdx isC2
    if j < rest.length then
      address.take (idx1 + 1 + j + 1) ++ str "******"
    else
      let k := address.findIdx isC2
      if k < address.length then
        address.take (k + 1) ++ str "******"
      else if 6 < address.length then address.take 6 ++ str "******"
      else str "******"
  else
    let k := address.findIdx isC2
    if k < address.length then
      address.take (k + 1) ++ str "******"
    else if 6 < address.length then address.take 6 ++ str "******"
    else str "******"

/-- `MaskStrategy._mask_email`: split on the first `@`, keep the domain,
mask the local part down to its first character plus `***` (a single `*`
for one-character local parts); values without `@` are returned unchanged. -/
def MaskStrategy._mask_email (email : Str) : Str :=
  if '@' ∈ email then
    let username := email.takeWhile (fun c => c ≠ '@')
    let domain := (email.dropWhile (fun c => c ≠ '@')).drop 1
    let masked_username :=
      if username.length ≤ 1 then ['*'] else username.take 1 ++ str "***"
    masked_username ++ ['@'] ++ domain
  else email

/-- `MaskStrategy.apply`: category-specific partial redaction. -/
def MaskStrategy.apply (value : Str) (data_type : Str) : Str :=
  if value = [] then value
  else if data_type = str "name" then
    if value.length ≤ 1 then value
    else value.take 1 ++ List.replicate (value.length - 1) '*'
  else if data_type = str "id_card" then
    if value.length < 18 then value
    else value.take 6 ++ List.replicate 8 '*' ++ value.drop (value.length - 4)
  else if data_type = str "phone" then
    if value.length < 11 then value
    else value.take 3 ++ str "****" ++ value.drop (value.length - 4)
  else if data_type = str "address" then
    MaskStrategy._mask_address value
  else if data_type = str "bank_card" then
    if value.length < 8 then value
    else value.take 4 ++ List.replicate (value.length - 8) '*' ++
      value.drop (value.length - 4)
  else if data_type = str "email" then
    MaskStrategy._mask_email value
  else
    if value.length ≤ 2 then List.replicate value.length '*'
    else value.take 1 ++ List.replicate (value.length - 2) '*' ++
      value.drop (value.length - 1)

/-- `ReplaceStrategy.PLACEHOLDERS`. -/
def PLACEHOLDERS : List (Str × Str) :=
  [(str "name", str "[姓名]"),
   (str "id_card", str "[身份证]"),
   (str "phone", str "[电话]"),
   (str "address", str "[地址]"),
   (str "bank_card", str "[银行卡]"),
   (str "email", str "[邮箱]")]

/-- `ReplaceStrategy.apply`: placeholder lookup with the generic fallback. -/
def ReplaceStrategy.apply (value : Str) (data_type : Str) : Str :=
  ((PLACEHOLDERS.lookup data_type).getD (str "[敏感信息]"))

/-- `DeleteStrategy.apply`. -/
def DeleteStrategy.apply (value : Str) (data_type : Str) : Str := []

/-- The processor's `self.strategies` dict, read through `.get`:
exactly the three keys `mask`, `replace`, `delete`. -/
def strategies_get (name : Str) : Option (Str → Str → Str) :=
  if name = str "mask" then some MaskStrategy.apply
  else if name = str "replace" then some ReplaceStrategy.apply
  else if name = str "delete" then some DeleteStrategy.apply
  else none

/-- `DesensitizationProcessor._find_rule`: first rule whose `data_type`
matches and whose `enabled` flag is set; `None` otherwise. -/
def _find_rule (data_type : Str) : List DesensitizationRule → Option DesensitizationRule
  | [] => none
  | r :: rs =>
    if r.data_type = data_type ∧ r.enabled = true then some r
    else _find_rule data_type rs

/-- Python splice `result[:s] + new_value + result[e:]`. -/
def splice (result : Str) (s e : Nat) (new_value : Str) : Str :=
  result.take s ++ new_value ++ result.drop e

/-- State threaded through the span loop of `DesensitizationProcessor.process`:
the working text, the consistency cache `value_mapping`, and a ghost log of
the `(span, replacement)` pairs actually spliced (the log is pure
instrumentation; the source only keeps the first two components). -/
structure ProcState where
  result : Str
  value_mapping : List (Str × Str)
  log : List (SensitiveItem × Str)
deriving DecidableEq

/-- Cache key `f"{item.type}:{item.value}"`. -/
def cacheKey (item : SensitiveItem) : Str := item.type ++ [':'] ++ item.value

/-- One iteration of the span loop of `DesensitizationProcessor.process`. -/
def processStep (rules : List DesensitizationRule) (st : ProcState)
    (item : SensitiveItem) : ProcState :=
  match _find_rule item.type rules with
  | some rule =>
    if rule.enabled then
      match strategies_get rule.strategy with
      | some strat =>
        let key := cacheKey item
        match st.value_mapping.lookup key with
        | some v =>
          ⟨splice st.result item.start_pos item.end_pos v,
           st.value_mapping, st.log ++ [(item, v)]⟩
        | none =>
          let new_value := strat item.value item.type
          ⟨splice st.result item.start_pos item.end_pos new_value,
           (key, new_value) :: st.value_mapping,
           st.log ++ [(item, new_value)]⟩
      | none => st
    else st
  | none => st

/-- Sort comparator of `process`: Python
`sorted(items, key=lambda x: x.start_pos, reverse=True)` (stable descending). -/
def procLe (a b : SensitiveItem) : Bool := decide (b.start_pos ≤ a.start_pos)

/-- `DesensitizationProcessor.process`, with the ghost log retained. -/
def processFull (text : Str) (sensitive_items : List SensitiveItem)
    (rules : List DesensitizationRule) : ProcState :=
  if text = [] ∨ sensitive_items = [] then ⟨text, [], []⟩
  else (pySorted procLe sensitive_items).foldl (processStep rules) ⟨text, [], []⟩

/-- `DesensitizationProcessor.process`: the desensitized text. -/
def process (text : Str) (sensitive_items : List SensitiveItem)
    (rules : List DesensitizationRule) : Str :=
  (processFull text sensitive_items rules).result

/-- A `re.finditer` oracle for a text that is one 18-digit run: the
id-card pattern and the (greedy) bank-card pattern both claim `[0, 18)`. -/
def exFinditer : Str → Str → List (Nat × Nat) := fun pat _ =>
  if pat = str "\\d\x7b17\x7d[\\dXx]" then [(0, 18)]
  else if pat = str "\\d\x7b16,19\x7d" then [(0, 18)]
  else []

/-- The 18-digit id-card text for the `exFinditer` oracle. -/
def exText : Str := str "110101199001011234"

/-- The interval-disjointness relation of the dedupe contract:
`a.end_pos <= b.start_pos or a.start_pos >= b.end_pos`. -/
def spansDisjoint (a b : SensitiveItem) : Prop :=
  a.end_pos ≤ b.start_pos ∨ a.start_pos ≥ b.end_pos

instance (a b : SensitiveItem) : Decidable (spansDisjoint a b) := by
  unfold spansDisjoint; infer_instance

/-- Invariant of the regex scan state: the accumulated items are pairwise
disjoint nonempty intervals, and every position they cover has been
claimed in the matched-position set. -/
def scanInv (st : List SensitiveItem × List Nat) : Prop :=
  st.1.Pairwise spansDisjoint ∧
  (∀ it ∈ st.1, it.start_pos < it.end_pos) ∧
  (∀ it ∈ st.1, ∀ p, it.start_pos ≤ p → p < it.end_pos → p ∈ st.2)

theorem find_rule_enabled :
    ∀ (rules : List DesensitizationRule) (dt : Str) (r : DesensitizationRule),
      _find_rule dt rules = some r → r.enabled = true := by
  intro rules
  induction rules with
  | nil => intro dt r h; simp [_find_rule] at h
  | cons a as ih =>
    intro dt r h
    rw [_find_rule] at h
    by_cases hc : a.data_type = dt ∧ a.enabled = true
    · rw [if_pos hc] at h
      cases h
      exact hc.2
    · rw [if_neg hc] at h
      exact ih dt r h

theorem processFull_single (text : Str) (item : SensitiveItem)
    (rules : List DesensitizationRule) (hne : text ≠ []) :
    processFull text [item] rules = processStep rules ⟨text, [], []⟩ item := by
  rw [processFull, if_neg (by simp [hne])]
  rfl

/-- C9: with a single span and a single rule that matches the span's
category but is disabled, `process` returns the input text unchanged. -/
theorem C9_disabled_rule_noop (text : Str) (item : SensitiveItem)
    (r : DesensitizationRule) (hmatch : r.data_type = item.type)
    (hdis : r.enabled = false) :
    process text [item] [r] = text := by
  by_cases hte : text = []
  · simp [process, processFull, hte]
  · rw [process, processFull_single text item [r] hte]
    have hfr : _find_rule item.type [r] = none := by
      rw [_find_rule, if_neg]
      · rfl
      · rintro ⟨-, h2⟩
        rw [hdis] at h2
        exact Bool.false_ne_true h2
    simp [processStep, hfr]

/-- C9 witness: a concrete disabled mask rule for a concrete phone span
leaves the text byte-identical. -/
theorem C9_disabled_rule_noop_witness :
    process (str "a13812345678b")
      [⟨[], str "phone", str "13812345678", 1, 12, 1⟩]
      [⟨str "1", str "r", str "phone", str "mask", false⟩] =
    str "a13812345678b" :=
  C9_disabled_rule_noop _ _ _ (by decide) (by decide)

/-- C10: a span whose resolved (hence enabled) rule names a strategy
outside mask/replace/delete is skipped silently: `process` is total and
returns the text unchanged. -/
theorem C10_unknown_strategy_skipped (text : Str) (item : SensitiveItem)
    (rules : List DesensitizationRule) (r : DesensitizationRule)
    (hr : _find_rule item.type rules = some r)
    (h1 : r.strategy ≠ str "mask") (h2 : r.strategy ≠ str "replace")
    (h3 : r.strategy ≠ str "delete") :
    process text [item] rules = text := by
  by_cases hte : text = []
  · simp [process, processFull, hte]
  · rw [process, processFull_single text item rules hte]
    have hs : strategies_get r.strategy = none := by
      rw [strategies_get, if_neg h1, if_neg h2, if_neg h3]
    have hen := find_rule_enabled rules item.type r hr
    simp [processStep, hr, hen, hs]

/-- C10 witness: a concrete enabled rule with strategy `"encrypt"` leaves
the text unchanged. -/
theorem C10_unknown_strategy_skipped_witness :
    process (str "a13812345678b")
      [⟨[], str "phone", str "13812345678", 1, 12, 1⟩]
      [⟨str "1", str "r", str "phone", str "encrypt", true⟩] =
    str "a13812345678b" :=
  C10_unknown_strategy_skipped _ _ _
    ⟨str "1", str "r", str "phone", str "encrypt", true⟩
    (by decide) (by decide) (by decide) (by decide)

/-- C5 counterexample: constructing a span with `end_pos = start_pos = 5`
succeeds — the dataclass validator only rejects `end_pos < start_pos`,
so equality does not raise. -/
theorem C5_counterexample : (mkSensitiveItem [] [] [] 5 5 1).isOk = true := by
  decide

/-- C5 amended: span construction fails exactly when `end_pos < start_pos`;
`end_pos = start_pos` is accepted. -/
theorem C5_construction_check (id ty v : Str) (s e : Nat) (c : ℚ) :
    (mkSensitiveItem id ty v s e c).isOk = true ↔ ¬ e < s := by
  rw [mkSensitiveItem]
  by_cases h : e < s
  · simp [h, Except.isOk, Except.toBool]
  · simp [h, Except.isOk, Except.toBool]

/-- C8: with `use_nlp = False`, `identify_sensitive_data` never raises the
extractor-backend-unavailable error: whatever the NLP oracle would have
done, the call returns the deduplicated regex items. -/
theorem C8_no_nlp_no_backend_error (finditer : Str → Str → List (Nat × Nat))
    (nlp : NlpOutcome) (text : Str) :
    identify_sensitive_data finditer nlp text false =
      .ok (_deduplicate (_regex_recognition finditer text)) := rfl

/-- C4 counterexample: a 19-character id-card value meets the scheme's
minimum of 18 but masks to an 18-character output, so the length is not
preserved. -/
theorem C4_counterexample :
    18 ≤ (str "1234567890123456789").length ∧
    (MaskStrategy.apply (str "1234567890123456789") (str "id_card")).length ≠
      (str "1234567890123456789").length := by
  decide

/-- C4 amended: Mask preserves length for BankCard whenever the input has
at least 8 characters, and for IdCard and Phone exactly at the scheme
widths 18 and 11 (longer inputs are squeezed to the fixed width). -/
theorem C4_mask_length (v : Str) :
    (v.length = 18 → (MaskStrategy.apply v (str "id_card")).length = v.length) ∧
    (v.length = 11 → (MaskStrategy.apply v (str "phone")).length = v.length) ∧
    (8 ≤ v.length → (MaskStrategy.apply v (str "bank_card")).length = v.length) := by
  refine ⟨fun h => ?_, fun h => ?_, fun h => ?_⟩
  · have hne : v ≠ [] := by intro h0; rw [h0] at h; simp at h
    rw [MaskStrategy.apply, if_neg hne, if_neg (by decide), if_pos rfl,
      if_neg (by omega)]
    simp [List.length_append, List.length_take, List.length_drop]
    omega
  · have hne : v ≠ [] := by intro h0; rw [h0] at h; simp at h
    rw [MaskStrategy.apply, if_neg hne, if_neg (by decide), if_neg (by decide),
      if_pos rfl, if_neg (by omega)]
    have h4 : (str "****").length = 4 := by decide
    simp [List.length_append, List.length_take, List.length_drop, h4]
    omega
  · have hne : v ≠ [] := by intro h0; rw [h0] at h; simp at h
    rw [MaskStrategy.apply, if_neg hne, if_neg (by decide), if_neg (by decide),
      if_neg (by decide), if_neg (by decide), if_pos rfl, if_neg (by omega)]
    simp [List.length_append, List.length_take, List.length_drop]
    omega

/-- C4 witness: concrete values at the scheme widths (18, 11, 8). -/
theorem C4_mask_length_witness :
    (MaskStrategy.apply (str "110101199001011234") (str "id_card")).length =
      (str "110101199001011234").length ∧
    (MaskStrategy.apply (str "13812345678") (str "phone")).length =
      (str "13812345678").length ∧
    (MaskStrategy.apply (str "12345678") (str "bank_card")).length =
      (str "12345678").length :=
  ⟨(C4_mask_length _).1 (by decide), (C4_mask_length _).2.1 (by decide),
   (C4_mask_length _).2.2 (by decide)⟩

/-- C3 counterexample: two overlapping spans both carrying confidence
exactly 1.0 — the deduplicator keeps the candidate (the second, `y`) and
discards the already-accepted span (`x`), not the other way round. -/
theorem C3_counterexample :
    overlapsB (⟨[], str "y", [], 0, 6, 1⟩ : SensitiveItem)
        (⟨[], str "x", [], 0, 5, 1⟩ : SensitiveItem) = true ∧
    _deduplicate [⟨[], str "x", [], 0, 5, 1⟩, ⟨[], str "y", [], 0, 6, 1⟩] =
      [⟨[], str "y", [], 0, 6, 1⟩] ∧
    (⟨[], str "y", [], 0, 6, 1⟩ : SensitiveItem) ≠ ⟨[], str "x", [], 0, 5, 1⟩ := by
  constructor
  · decide
  · constructor
    · decide
    · decide

/-- C3 amended: on an overlap with equal confidences the deduplicator keeps
the already-accepted span only when the shared confidence is not 1.0; when
both are exactly 1.0 the candidate replaces the accepted span. -/
theorem C3_equal_confidence_tie (a b : SensitiveItem)
    (hle : dedupLe a b = true) (hov : overlapsB b a = true)
    (hconf : b.confidence = a.confidence) :
    (a.confidence = 1 → _deduplicate [a, b] = [b]) ∧
    (a.confidence ≠ 1 → _deduplicate [a, b] = [a]) := by
  have hsort : pySorted dedupLe [a, b] = [a, b] := by
    simp [pySorted, insertLe, hle]
  have hded : _deduplicate [a, b] = dedupStep b [a] := by
    rw [_deduplicate, if_neg (by simp), hsort]
    rfl
  have hgt : ¬ (b.confidence > a.confidence) := by
    rw [hconf]; exact lt_irrefl _
  constructor
  · intro h1
    simp [hded, dedupStep, hov, hgt, hconf, h1]
  · intro h1
    simp [hded, dedupStep, hov, hgt, hconf, h1]

/-- C3 witness: two overlapping spans with a shared confidence of 4/5 keep
the first (already-accepted) span. -/
theorem C3_equal_confidence_tie_witness :
    _deduplicate [⟨[], str "x", [], 0, 5, mkRat 4 5⟩,
                  ⟨[], str "y", [], 0, 6, mkRat 4 5⟩] =
      [⟨[], str "x", [], 0, 5, mkRat 4 5⟩] :=
  (C3_equal_confidence_tie _ _ (by decide) (by decide) (by decide)).2 (by decide)

theorem overlapsB_true_iff (i e : SensitiveItem) :
    overlapsB i e = true ↔
      e.start_pos < i.end_pos ∧ i.start_pos < e.end_pos := by
  simp [overlapsB]

theorem overlapsB_false_disjoint (i e : SensitiveItem)
    (h : overlapsB i e = false) : spansDisjoint e i := by
  simp [overlapsB] at h
  unfold spansDisjoint
  omega

theorem mem_dedupStep {x item : SensitiveItem} :
    ∀ {l : List SensitiveItem}, x ∈ dedupStep item l → x ∈ l ∨ x = item := by
  intro l
  induction l with
  | nil =>
    intro h
    right
    rw [dedupStep, List.mem_singleton] at h
    exact h
  | cons existing rest ih =>
    intro h
    rw [dedupStep] at h
    by_cases hov : overlapsB item existing = true
    · rw [if_pos hov] at h
      rcases List.mem_cons.mp h with h1 | h1
      · split_ifs at h1
        · right; exact h1
        · right; exact h1
        · left; rw [h1]; exact List.mem_cons_self existing rest
      · left; exact List.mem_cons_of_mem _ h1
    · rw [if_neg hov] at h
      rcases List.mem_cons.mp h with h1 | h1
      · left; rw [h1]; exact List.mem_cons_self existing rest
      · rcases ih h1 with h2 | h2
        · left; exact List.mem_cons_of_mem _ h2
        · right; exact h2

/-- Resolving a candidate against the accepted list preserves pairwise
disjointness, because a candidate whose start is at least every accepted
start can overlap at most one accepted span. -/
theorem dedupStep_pairwise (item : SensitiveItem) :
    ∀ (l : List SensitiveItem), l.Pairwise spansDisjoint →
      (∀ x ∈ l, x.start_pos ≤ item.start_pos) →
      (dedupStep item l).Pairwise spansDisjoint := by
  intro l
  induction l with
  | nil =>
    intro _ _
    rw [dedupStep]
    exact List.pairwise_singleton _ _
  | cons existing rest ih =>
    intro hl hstart
    rcases List.pairwise_cons.mp hl with ⟨hhead, hrest⟩
    rw [dedupStep]
    by_cases hov : overlapsB item existing = true
    · rw [if_pos hov]
      have hitem_rest : ∀ y ∈ rest, spansDisjoint item y := by
        intro y hy
        rcases (overlapsB_true_iff item existing).mp hov with ⟨ho1, ho2⟩
        have hd := hhead y hy
        have hse : existing.start_pos ≤ item.start_pos :=
          hstart existing (List.mem_cons_self _ _)
        have hsy : y.start_pos ≤ item.start_pos :=
          hstart y (List.mem_cons_of_mem _ hy)
        unfold spansDisjoint at hd ⊢
        omega
      split_ifs
      · exact List.pairwise_cons.mpr ⟨hitem_rest, hrest⟩
      · exact List.pairwise_cons.mpr ⟨hitem_rest, hrest⟩
      · exact hl
    · rw [if_neg hov]
      refine List.pairwise_cons.mpr ⟨?_, ?_⟩
      · intro w hw
        rcases mem_dedupStep hw with h2 | h2
        · exact hhead w h2
        · rw [h2]
          exact overlapsB_false_disjoint item existing
            (Bool.not_eq_true _ ▸ hov)
      · exact ih hrest (fun x hx => hstart x (List.mem_cons_of_mem _ hx))

/-- Folding the dedupe step over a start-sorted list keeps the accepted
list pairwise disjoint. -/
theorem dedup_foldl_pairwise :
    ∀ (l : List SensitiveItem) (acc : List SensitiveItem),
      l.Pairwise (fun a b => a.start_pos ≤ b.start_pos) →
      acc.Pairwise spansDisjoint →
      (∀ x ∈ acc, ∀ y ∈ l, x.start_pos ≤ y.start_pos) →
      (l.foldl (fun a i => dedupStep i a) acc).Pairwise spansDisjoint := by
  intro l
  induction l with
  | nil =>
    intro acc _ hacc _
    exact hacc
  | cons hd tl ih =>
    intro acc hsort hacc hbound
    rcases List.pairwise_cons.mp hsort with ⟨hhd, htl⟩
    rw [List.foldl_cons]
    refine ih (dedupStep hd acc) htl ?_ ?_
    · exact dedupStep_pairwise hd acc hacc
        (fun x hx => hbound x hx hd (List.mem_cons_self _ _))
    · intro x hx y hy
      rcases mem_dedupStep hx with h2 | h2
      · exact hbound x h2 y (List.mem_cons_of_mem _ hy)
      · rw [h2]
        exact hhd y hy

theorem mem_insertLe {α : Type} (le : α → α → Bool) (a x : α) :
    ∀ (l : List α), x ∈ insertLe le a l ↔ x = a ∨ x ∈ l := by
  intro l
  induction l with
  | nil => simp [insertLe]
  | cons y ys ih =>
    rw [insertLe]
    by_cases h : le y a = true
    · rw [if_pos h]
      simp [ih]
      tauto
    · rw [if_neg h]
      simp

theorem insertLe_pairwise {α : Type} (le : α → α → Bool)
    (htot : ∀ a b, le a b = true ∨ le b a = true)
    (htrans : ∀ a b c, le a b = true → le b c = true → le a c = true)
    (a : α) :
    ∀ (l : List α), l.Pairwise (fun x y => le x y = true) →
      (insertLe le a l).Pairwise (fun x y => le x y = true) := by
  intro l
  induction l with
  | nil =>
    intro _
    rw [insertLe]
    exact List.pairwise_singleton _ _
  | cons y ys ih =>
    intro hl
    rcases List.pairwise_cons.mp hl with ⟨hhead, hrest⟩
    rw [insertLe]
    by_cases h : le y a = true
    · rw [if_pos h]
      refine List.pairwise_cons.mpr ⟨?_, ih hrest⟩
      intro w hw
      rcases (mem_insertLe le a w ys).mp hw with h2 | h2
      · rw [h2]; exact h
      · exact hhead w h2
    · rw [if_neg h]
      have hay : le a y = true := by
        rcases htot a y with h2 | h2
        · exact h2
        · exact absurd h2 h
      refine List.pairwise_cons.mpr ⟨?_, hl⟩
      intro w hw
      rcases List.mem_cons.mp hw with h2 | h2
      · rw [h2]; exact hay
      · exact htrans a y w hay (hhead w h2)

theorem pySorted_pairwise {α : Type} (le : α → α → Bool)
    (htot : ∀ a b, le a b = true ∨ le b a = true)
    (htrans : ∀ a b c, le a b = true → le b c = true → le a c = true)
    (l : List α) :
    (pySorted le l).Pairwise (fun x y => le x y = true) := by
  rw [pySorted]
  have main : ∀ (l acc : List α), acc.Pairwise (fun x y => le x y = true) →
      (l.foldl (fun acc x => insertLe le x acc) acc).Pairwise
        (fun x y => le x y = true) := by
    intro l
    induction l with
    | nil => intro acc hacc; exact hacc
    | cons hd tl ih =>
      intro acc hacc
      rw [List.foldl_cons]
      exact ih _ (insertLe_pairwise le htot htrans hd acc hacc)
  exact main l [] List.Pairwise.nil

theorem dedupLe_total (a b : SensitiveItem) :
    dedupLe a b = true ∨ dedupLe b a = true := by
  simp [dedupLe]
  omega

theorem dedupLe_trans (a b c : SensitiveItem) (h1 : dedupLe a b = true)
    (h2 : dedupLe b c = true) : dedupLe a c = true := by
  simp [dedupLe] at h1 h2 ⊢
  omega

/-- C1: for every input list of spans, the output of `_deduplicate`
contains no pair of spans whose intervals overlap: for any two distinct
output spans `a` (earlier) and `b` (later),
`a.end_pos <= b.start_pos or a.start_pos >= b.end_pos`. -/
theorem C1_deduplicate_nonoverlapping (items : List SensitiveItem) :
    (_deduplicate items).Pairwise spansDisjoint := by
  rw [_deduplicate]
  by_cases h : items = []
  · rw [if_pos h]
    exact List.Pairwise.nil
  · rw [if_neg h]
    refine dedup_foldl_pairwise _ [] ?_ List.Pairwise.nil (by simp)
    have hp := pySorted_pairwise dedupLe dedupLe_total dedupLe_trans items
    refine hp.imp ?_
    intro a b hab
    simp [dedupLe] at hab
    omega

/-- The span loop preserves the cache-log invariant: every logged
replacement is exactly what the consistency cache holds for its span's
`(type, value)` key, and cache entries are never overwritten. -/
theorem processStep_cache_inv (rules : List DesensitizationRule)
    (st : ProcState) (item : SensitiveItem)
    (hinv : ∀ e ∈ st.log, st.value_mapping.lookup (cacheKey e.1) = some e.2) :
    ∀ e ∈ (processStep rules st item).log,
      (processStep rules st item).value_mapping.lookup (cacheKey e.1) = some e.2 := by
  cases hfr : _find_rule item.type rules with
  | none =>
    simp only [processStep, hfr]
    exact hinv
  | some rule =>
    by_cases hen : rule.enabled = true
    · cases hst : strategies_get rule.strategy with
      | none =>
        simp only [processStep, hfr, hst, if_pos hen]
        exact hinv
      | some strat =>
        cases hlk : st.value_mapping.lookup (cacheKey item) with
        | some v =>
          simp only [processStep, hfr, hst, if_pos hen, hlk]
          intro e he
          rcases List.mem_append.mp he with h1 | h1
          · exact hinv e h1
          · rcases List.mem_singleton.mp h1 with rfl
            exact hlk
        | none =>
          simp only [processStep, hfr, hst, if_pos hen, hlk]
          intro e he
          rcases List.mem_append.mp he with h1 | h1
          · have hold := hinv e h1
            by_cases hkey : cacheKey e.1 = cacheKey item
            · rw [hkey, hlk] at hold
              exact absurd hold (by simp)
            · have hb : (cacheKey e.1 == cacheKey item) = false :=
                beq_eq_false_iff_ne.mpr hkey
              simp only [List.lookup, hb]
              exact hold
          · rcases List.mem_singleton.mp h1 with rfl
            simp [List.lookup]
    · simp only [processStep, hfr, if_neg hen]
      exact hinv

theorem processFull_cache_inv (text : Str) (items : List SensitiveItem)
    (rules : List DesensitizationRule) :
    ∀ e ∈ (processFull text items rules).log,
      (processFull text items rules).value_mapping.lookup (cacheKey e.1) = some e.2 := by
  rw [processFull]
  by_cases h : text = [] ∨ items = []
  · rw [if_pos h]
    intro e he
    simp at he
  · rw [if_neg h]
    have main : ∀ (l : List SensitiveItem) (st : ProcState),
        (∀ e ∈ st.log, st.value_mapping.lookup (cacheKey e.1) = some e.2) →
        ∀ e ∈ (l.foldl (processStep rules) st).log,
          (l.foldl (processStep rules) st).value_mapping.lookup (cacheKey e.1) = some e.2 := by
      intro l
      induction l with
      | nil => intro st hst; exact hst
      | cons hd tl ih =>
        intro st hst
        rw [List.foldl_cons]
        exact ih _ (processStep_cache_inv rules st hd hst)
    exact main _ _ (by intro e he; simp at he)

/-- C2: within one call to `process`, any two spliced spans carrying the
same `(category, value)` pair receive byte-identical replacement strings
(the consistency-cache law). -/
theorem C2_consistent_replacements (text : Str) (items : List SensitiveItem)
    (rules : List DesensitizationRule) (e₁ e₂ : SensitiveItem × Str)
    (h₁ : e₁ ∈ (processFull text items rules).log)
    (h₂ : e₂ ∈ (processFull text items rules).log)
    (ht : e₁.1.type = e₂.1.type) (hv : e₁.1.value = e₂.1.value) :
    e₁.2 = e₂.2 := by
  have i₁ := processFull_cache_inv text items rules e₁ h₁
  have i₂ := processFull_cache_inv text items rules e₂ h₂
  have hk : cacheKey e₁.1 = cacheKey e₂.1 := by
    rw [cacheKey, cacheKey, ht, hv]
  rw [hk] at i₁
  exact Option.some.inj (i₁.symm.trans i₂)

/-- C2 witness: a text holding the same phone number twice, an enabled
mask rule — both spliced spans are logged with the identical replacement. -/
theorem C2_consistent_replacements_witness :
    ((⟨[], str "phone", str "13812345678", 1, 12, 1⟩ : SensitiveItem),
      str "138****5678").2 =
    ((⟨[], str "phone", str "13812345678", 13, 24, 1⟩ : SensitiveItem),
      str "138****5678").2 :=
  C2_consistent_replacements (str "a13812345678b13812345678c")
    [⟨[], str "phone", str "13812345678", 1, 12, 1⟩,
     ⟨[], str "phone", str "13812345678", 13, 24, 1⟩]
    [⟨str "1", str "r", str "phone", str "mask", true⟩]
    _ _ (by decide) (by decide) (by decide) (by decide)

/-- A match with unclaimed positions is disjoint from every accumulated
item, so the regex-scan step preserves the scan invariant. -/
theorem matchStep_inv (dtype text : Str) (st : List SensitiveItem × List Nat)
    (m : Nat × Nat) (hm : m.1 < m.2) (hinv : scanInv st) :
    scanInv (matchStep dtype text st m) := by
  obtain ⟨items, matched⟩ := st
  rcases hinv with ⟨hpw, hne, hpos⟩
  rw [matchStep]
  by_cases hov : (List.range' m.1 (m.2 - m.1)).any (fun p => matched.contains p) = true
  · simp only [if_pos hov]
    exact ⟨hpw, hne, hpos⟩
  · simp only [if_neg hov]
    have hfree : ∀ p, m.1 ≤ p → p < m.2 → p ∉ matched := by
      intro p hp1 hp2 hpm
      apply hov
      rw [List.any_eq_true]
      refine ⟨p, ?_, by simpa using hpm⟩
      rw [List.mem_range']
      exact ⟨p - m.1, by omega, by omega⟩
    refine ⟨?_, ?_, ?_⟩
    · rw [List.pairwise_append]
      refine ⟨hpw, List.pairwise_singleton _ _, ?_⟩
      intro a ha b hb
      rcases List.mem_singleton.mp hb with rfl
      by_contra hnd
      unfold spansDisjoint at hnd
      push_neg at hnd
      simp only at hnd
      have haa := hne a ha
      have hq := hpos a ha (max a.start_pos m.1) (by omega) (by omega)
      exact hfree (max a.start_pos m.1) (by omega) (by omega) hq
    · intro it hit
      rcases List.mem_append.mp hit with h1 | h1
      · exact hne it h1
      · rcases List.mem_singleton.mp h1 with rfl
        exact hm
    · intro it hit p hp1 hp2
      rcases List.mem_append.mp hit with h1 | h1
      · exact List.mem_append_left _ (hpos it h1 p hp1 hp2)
      · rcases List.mem_singleton.mp h1 with rfl
        simp only at hp1 hp2
        refine List.mem_append_right _ ?_
        rw [List.mem_range']
        exact ⟨p - m.1, by omega, by omega⟩

theorem matches_foldl_inv (dtype text : Str) :
    ∀ (ms : List (Nat × Nat)) (st : List SensitiveItem × List Nat),
      (∀ m ∈ ms, m.1 < m.2) → scanInv st →
      scanInv (ms.foldl (matchStep dtype text) st) := by
  intro ms
  induction ms with
  | nil => intro st _ hinv; exact hinv
  | cons hd tl ih =>
    intro st hms hinv
    rw [List.foldl_cons]
    exact ih _ (fun m hm => hms m (List.mem_cons_of_mem _ hm))
      (matchStep_inv dtype text st hd (hms hd (List.mem_cons_self _ _)) hinv)

theorem patterns_foldl_inv (finditer : Str → Str → List (Nat × Nat)) (text : Str) :
    ∀ (pats : List (Str × Str)) (st : List SensitiveItem × List Nat),
      (∀ dp ∈ pats, ∀ m ∈ finditer dp.2 text, m.1 < m.2) → scanInv st →
      scanInv (pats.foldl
        (fun st dp => (finditer dp.2 text).foldl (matchStep dp.1 text) st) st) := by
  intro pats
  induction pats with
  | nil => intro st _ hinv; exact hinv
  | cons hd tl ih =>
    intro st hp hinv
    rw [List.foldl_cons]
    refine ih _ (fun dp hdp => hp dp (List.mem_cons_of_mem _ hdp)) ?_
    exact matches_foldl_inv hd.1 text (finditer hd.2 text) st
      (hp hd (List.mem_cons_self _ _)) hinv

/-- C7: provided every match the regex engine reports is nonempty (true of
all four patterns, each of which requires at least one character), the
claimed-position mechanism of `_regex_recognition` guarantees that no two
emitted spans overlap — positions claimed by a higher-priority pattern are
excluded from later patterns' matches. -/
theorem C7_regex_scan_nonoverlapping (finditer : Str → Str → List (Nat × Nat))
    (text : Str)
    (h : ∀ dp ∈ REGEX_PATTERNS, ∀ m ∈ finditer dp.2 text, m.1 < m.2) :
    (_regex_recognition finditer text).Pairwise spansDisjoint := by
  rw [_regex_recognition]
  exact (patterns_foldl_inv finditer text REGEX_PATTERNS ([], [])
    h ⟨List.Pairwise.nil, by simp, by simp⟩).1

/-- C7 witness: an 18-digit run reported at `[0, 18)` by both the id-card
and the (greedy) bank-card pattern — the scan emits only non-overlapping
spans, i.e. the run is claimed once, not double-counted. -/
theorem C7_regex_scan_nonoverlapping_witness :
    (_regex_recognition exFinditer exText).Pairwise spansDisjoint :=
  C7_regex_scan_nonoverlapping exFinditer exText (by decide)

theorem prefix_of_prefix_append {v X Y : Str} (h : v <+: X ++ Y)
    (hlen : v.length ≤ X.length) : v <+: X := by
  have heq := List.prefix_iff_eq_take.mp h
  rw [List.take_append_eq_append_take, Nat.sub_eq_zero_of_le hlen,
    List.take_zero, List.append_nil] at heq
  rw [heq]
  exact List.take_prefix _ _

theorem prefix_drop_lt_length {v t : Str} {p : Nat} (hv : v ≠ [])
    (h : v <+: t.drop p) : p < t.length := by
  have h1 := h.length_le
  rw [List.length_drop] at h1
  have h2 : 0 < v.length := List.length_pos.mpr hv
  omega

theorem substring_exists_drop {v t : Str} (h : v <:+: t) :
    ∃ q, v <+: t.drop q := by
  rcases h with ⟨u, w, huw⟩
  refine ⟨u.length, ?_⟩
  rw [← huw, List.append_assoc, List.drop_left]
  exact List.prefix_append _ _

/-- C6 counterexample: a single-character name span with an enabled mask
rule — masking a one-character name is a defensive no-op, so the output
equals the input and still contains the span's original value. -/
theorem C6_counterexample :
    process (str "aa") [⟨[], str "name", str "a", 0, 1, 1⟩]
      [⟨str "1", str "r", str "name", str "mask", true⟩] = str "aa" ∧
    (str "a") <:+:
      process (str "aa") [⟨[], str "name", str "a", 0, 1, 1⟩]
        [⟨str "1", str "r", str "name", str "mask", true⟩] ∧
    pySlice (str "aa") 0 1 = str "a" := by
  refine ⟨by decide, by decide, by decide⟩

/-- C6 amended: for a single span whose value occurs in the text only at
the span's own position and whose resolved enabled rule produces a
nonempty replacement sharing no character with the value, the output of
`process` does not contain the original value as a substring.  (The
unguarded claim fails: a no-op strategy output, or a second occurrence of
the value outside any span, survives into the output.) -/
theorem C6_value_eliminated (text : Str) (item : SensitiveItem)
    (rules : List DesensitizationRule) (r : DesensitizationRule)
    (strat : Str → Str → Str)
    (hr : _find_rule item.type rules = some r)
    (hst : strategies_get r.strategy = some strat)
    (hse : item.start_pos < item.end_pos)
    (hel : item.end_pos ≤ text.length)
    (hval : item.value = pySlice text item.start_pos item.end_pos)
    (huniq : ∀ p < text.length, item.value <+: text.drop p → p = item.start_pos)
    (hRne : strat item.value item.type ≠ [])
    (hdisj : ∀ c ∈ item.value, c ∉ strat item.value item.type) :
    ¬ item.value <:+: process text [item] rules := by
  have htlen : 0 < text.length := by omega
  have htne : text ≠ [] := by
    intro h0
    rw [h0] at htlen
    simp at htlen
  have hen := find_rule_enabled rules item.type r hr
  have hproc : process text [item] rules =
      text.take item.start_pos ++
        (strat item.value item.type ++ text.drop item.end_pos) := by
    rw [process, processFull_single _ _ _ htne]
    simp [processStep, hr, hen, hst, splice, List.lookup]
  have hvallen : item.value.length = item.end_pos - item.start_pos := by
    rw [hval]
    simp [pySlice, List.length_take, List.length_drop]
    omega
  have hL : 0 < item.value.length := by omega
  have hm : 0 < (strat item.value item.type).length :=
    List.length_pos.mpr hRne
  have hPlen : (text.take item.start_pos).length = item.start_pos := by
    simp [List.length_take]
    omega
  rw [hproc]
  intro hinf
  obtain ⟨q, hq⟩ := substring_exists_drop hinf
  by_cases hc1 : q + item.value.length ≤ item.start_pos
  · rw [List.drop_append_eq_append_drop, hPlen] at hq
    have hq0 : q - item.start_pos = 0 := by omega
    rw [hq0, List.drop_zero] at hq
    have hpre : item.value <+: (text.take item.start_pos).drop q :=
      prefix_of_prefix_append hq (by rw [List.length_drop, hPlen]; omega)
    rw [List.drop_take] at hpre
    have hocc : item.value <+: text.drop q :=
      hpre.trans (List.take_prefix _ _)
    have hqs := huniq q (by omega) hocc
    omega
  · by_cases hc2 : item.start_pos + (strat item.value item.type).length ≤ q
    · rw [List.drop_append_eq_append_drop, hPlen] at hq
      have h1 : (text.take item.start_pos).drop q = [] :=
        List.drop_eq_nil_of_le (by rw [hPlen]; omega)
      rw [h1, List.nil_append, List.drop_append_eq_append_drop] at hq
      have h2 : (strat item.value item.type).drop (q - item.start_pos) = [] :=
        List.drop_eq_nil_of_le (by omega)
      rw [h2, List.nil_append, List.drop_drop] at hq
      have hqlt := prefix_drop_lt_length
        (List.length_pos.mp hL) hq
      have hqs := huniq _ hqlt hq
      omega
    · push_neg at hc1 hc2
      have hjq : q ≤ max q item.start_pos := le_max_left _ _
      have hjs : item.start_pos ≤ max q item.start_pos := le_max_right _ _
      have hidx : max q item.start_pos - q < item.value.length := by omega
      have hge := hq.getElem hidx
      rw [List.getElem_drop] at hge
      rw [List.getElem_append_right (by rw [hPlen]; omega)] at hge
      rw [List.getElem_append_left (by rw [hPlen]; omega)] at hge
      have hmv := List.getElem_mem hidx
      refine hdisj _ hmv ?_
      rw [hge]
      exact List.getElem_mem _

/-- C6 witness: a phone span covering the only occurrence of the number,
with an enabled replace rule — the placeholder shares no character with
the number, and the output no longer contains it. -/
theorem C6_value_eliminated_witness :
    ¬ (str "13812345678") <:+:
      process (str "ab13812345678cd")
        [⟨[], str "phone", str "13812345678", 2, 13, 1⟩]
        [⟨str "1", str "r", str "phone", str "replace", true⟩] :=
  C6_value_eliminated (str "ab13812345678cd")
    ⟨[], str "phone", str "13812345678", 2, 13, 1⟩
    [⟨str "1", str "r", str "phone", str "replace", true⟩]
    ⟨str "1", str "r", str "phone", str "replace", true⟩
    ReplaceStrategy.apply
    (by decide) (by rfl) (by decide) (by decide) (by decide) (by decide)
    (by decide) (by decide)
